import Mathlib

/-!
Verification of the vxdebug debugger core against its specification.

The development shallowly embeds the C++ sources:
* the DM register catalog (`dmdefs.h`): field descriptors, `mask`/`width`,
  `extract_dmreg_field`, `set_dmreg_field`;
* the DM access layer of `backend.cpp`: `dmreg_wrfield`, `dmreg_pollfield`
  over an explicit transport model (a read oracle plus a write trace);
* the warp-control engine's CSR access, memory access and breakpoints;
* the GDB stub of `gdbstub.cpp`: packet framing (`packetify` and
  `recv_packet`), the global-thread-id map and `cmd_thread_select`.

Machine integers are `Nat` with explicit `% 2 ^ 32` where C truncation
matters; C `int` return codes are `Int`; fallible operations return
`Option` or carry the code.
-/

namespace VxDebug

/-! ## Return codes (util.h) -/

def RCODE_OK : Int := 0
def RCODE_ERROR : Int := -1
def RCODE_TIMEOUT : Int := -2
def RCODE_INVALID_ARG : Int := -4
def RCODE_TRANSPORT_ERR : Int := -7
def RCODE_NONESELECTED_ERR : Int := -8

/-! ## DM register catalog (dmdefs.h) -/

/-- A DM register field descriptor (`FieldInfo_t` in dmdefs.h): a name and
inclusive msb/lsb bit positions inside a 32-bit word. -/
structure FieldInfo_t where
  name : String
  msb : Nat
  lsb : Nat
deriving DecidableEq

/-- `FieldInfo_t::width()`: `msb - lsb + 1`.  (In the catalog every field
has `lsb ≤ msb ≤ 31`, proved below, so the C `uint32_t` arithmetic and the
truncated `Nat` subtraction agree.) -/
def FieldInfo_t.width (f : FieldInfo_t) : Nat := f.msb - f.lsb + 1

/-- `FieldInfo_t::mask()`: all-ones for a 32-bit-wide field, otherwise
`((1u << width) - 1) << lsb` computed in `uint32_t`. -/
def FieldInfo_t.mask (f : FieldInfo_t) : Nat :=
  let width := f.msb - f.lsb + 1
  if width = 32 then 0xFFFFFFFF
  else (((1 <<< width) - 1) <<< f.lsb) % 2 ^ 32

def PLATFORM_FIELDS : List FieldInfo_t :=
  [⟨"platformid", 31, 28⟩, ⟨"numclusters", 27, 21⟩, ⟨"numcores", 20, 12⟩,
   ⟨"numwarps", 11, 3⟩, ⟨"numthreads", 2, 0⟩]

def DCONFIG_FIELDS : List FieldInfo_t :=
  [⟨"ndmresetcyc", 31, 29⟩, ⟨"resethaltreqcyc", 28, 26⟩, ⟨"ebreakh", 0, 0⟩]

def DSELECT_FIELDS : List FieldInfo_t :=
  [⟨"winsel", 31, 22⟩, ⟨"warpsel", 21, 7⟩, ⟨"threadsel", 6, 0⟩]

def WMASK_FIELDS : List FieldInfo_t := [⟨"mask", 31, 0⟩]

def WACTIVE_FIELDS : List FieldInfo_t := [⟨"astatus", 31, 0⟩]

def WSTATUS_FIELDS : List FieldInfo_t := [⟨"status", 31, 0⟩]

def DCTRL_FIELDS : List FieldInfo_t :=
  [⟨"dmactive", 31, 31⟩, ⟨"ndmreset", 30, 30⟩, ⟨"allhalted", 29, 29⟩,
   ⟨"anyhalted", 28, 28⟩, ⟨"allrunning", 27, 27⟩, ⟨"anyrunning", 26, 26⟩,
   ⟨"allunavail", 25, 25⟩, ⟨"anyunavail", 24, 24⟩, ⟨"hacause", 11, 9⟩,
   ⟨"injectstate", 8, 7⟩, ⟨"injectreq", 6, 6⟩, ⟨"stepstate", 5, 4⟩,
   ⟨"stepreq", 3, 3⟩, ⟨"resethaltreq", 2, 2⟩, ⟨"resumereq", 1, 1⟩,
   ⟨"haltreq", 0, 0⟩]

def DPC_FIELDS : List FieldInfo_t := [⟨"pc", 31, 0⟩]

def DINJECT_FIELDS : List FieldInfo_t := [⟨"instr", 31, 0⟩]

def DSCRATCH_FIELDS : List FieldInfo_t := [⟨"data", 31, 0⟩]

/-- The DM register identifiers (`DMReg_t`), in enumeration order 0x0..0x9. -/
inductive DMReg_t
  | PLATFORM | DCONFIG | DSELECT | WMASK | WACTIVE
  | WSTATUS | DCTRL | DPC | DINJECT | DSCRATCH
deriving DecidableEq

/-- A DM register descriptor (`DMRegInfo_t`). -/
structure DMRegInfo_t where
  id : DMReg_t
  name : String
  addr : Nat
  fields : List FieldInfo_t

/-- `get_dmreg`: index `DM_REGS` by the register id (the enum value is the
array position, so a direct match embeds the table lookup). -/
def get_dmreg : DMReg_t → DMRegInfo_t
  | .PLATFORM => ⟨.PLATFORM, "platform", 0x00, PLATFORM_FIELDS⟩
  | .DCONFIG  => ⟨.DCONFIG, "dconfig", 0x01, DCONFIG_FIELDS⟩
  | .DSELECT  => ⟨.DSELECT, "dselect", 0x02, DSELECT_FIELDS⟩
  | .WMASK    => ⟨.WMASK, "wmask", 0x03, WMASK_FIELDS⟩
  | .WACTIVE  => ⟨.WACTIVE, "wactive", 0x04, WACTIVE_FIELDS⟩
  | .WSTATUS  => ⟨.WSTATUS, "wstatus", 0x05, WSTATUS_FIELDS⟩
  | .DCTRL    => ⟨.DCTRL, "dctrl", 0x06, DCTRL_FIELDS⟩
  | .DPC      => ⟨.DPC, "dpc", 0x07, DPC_FIELDS⟩
  | .DINJECT  => ⟨.DINJECT, "dinject", 0x08, DINJECT_FIELDS⟩
  | .DSCRATCH => ⟨.DSCRATCH, "dscratch", 0x09, DSCRATCH_FIELDS⟩

def get_dmreg_addr (id : DMReg_t) : Nat := (get_dmreg id).addr

/-- `get_dmreg_field`: linear search of the register's field list by name.
The C++ function throws on a miss; the embedding returns `none`. -/
def get_dmreg_field (reg : DMReg_t) (fieldname : String) : Option FieldInfo_t :=
  (get_dmreg reg).fields.find? (fun f => f.name == fieldname)

/-- Body of `extract_dmreg_field`: `(reg_value & mask) >> lsb`. -/
def extract_field_value (finfo : FieldInfo_t) (reg_value : Nat) : Nat :=
  (reg_value &&& finfo.mask) >>> finfo.lsb

/-- Body of `set_dmreg_field`:
`(reg_value & ~mask) | ((field_value << lsb) & mask)` in `uint32_t`
(`~mask` is `mask ^ 0xFFFFFFFF`; the shift truncates to 32 bits). -/
def set_field_value (finfo : FieldInfo_t) (reg_value field_value : Nat) : Nat :=
  (reg_value &&& (finfo.mask ^^^ 0xFFFFFFFF)) |||
    (((field_value <<< finfo.lsb) % 2 ^ 32) &&& finfo.mask)

/-- `extract_dmreg_field`: look the field up, then extract. -/
def extract_dmreg_field (reg : DMReg_t) (fieldname : String) (reg_value : Nat) : Option Nat :=
  (get_dmreg_field reg fieldname).map (fun finfo => extract_field_value finfo reg_value)

/-- `set_dmreg_field`: look the field up, then substitute it. -/
def set_dmreg_field (reg : DMReg_t) (fieldname : String) (reg_value field_value : Nat) :
    Option Nat :=
  (get_dmreg_field reg fieldname).map (fun finfo => set_field_value finfo reg_value field_value)

/-! ## Catalog facts and bit-level lemmas -/

/-- Every field of the catalog is well-formed: `lsb ≤ msb ≤ 31`. -/
theorem catalog_fields_wf (reg : DMReg_t) :
    ∀ f ∈ (get_dmreg reg).fields, f.lsb ≤ f.msb ∧ f.msb ≤ 31 := by
  cases reg <;> decide

theorem hFFFF : (0xFFFFFFFF : Nat) = 2 ^ 32 - 1 := by norm_num

/-- For a well-formed field the mask is the width-many-ones pattern shifted
to the field's position (the 32-bit special case included). -/
theorem FieldInfo_t.mask_eq (f : FieldInfo_t) (h1 : f.lsb ≤ f.msb) (h2 : f.msb ≤ 31) :
    f.mask = (2 ^ f.width - 1) <<< f.lsb := by
  unfold FieldInfo_t.mask FieldInfo_t.width
  by_cases h : f.msb - f.lsb + 1 = 32
  · have hl : f.lsb = 0 := by omega
    have hm : f.msb = 31 := by omega
    rw [hl, hm]
    norm_num [hFFFF]
  · simp only [h, ite_false]
    rw [Nat.shiftLeft_eq, Nat.shiftLeft_eq, Nat.shiftLeft_eq, one_mul]
    apply Nat.mod_eq_of_lt
    calc (2 ^ (f.msb - f.lsb + 1) - 1) * 2 ^ f.lsb
        < 2 ^ (f.msb - f.lsb + 1) * 2 ^ f.lsb := by
          apply Nat.mul_lt_mul_of_lt_of_le
          · exact Nat.sub_lt (Nat.pos_pow_of_pos _ (by norm_num)) (by norm_num)
          · exact le_rfl
          · exact Nat.pos_pow_of_pos _ (by norm_num)
      _ = 2 ^ (f.msb - f.lsb + 1 + f.lsb) := (pow_add 2 _ _).symm
      _ ≤ 2 ^ 32 := Nat.pow_le_pow_right (by norm_num) (by omega)

/-- Bit `i` of a well-formed field's mask is set iff `lsb ≤ i ≤ msb`. -/
theorem FieldInfo_t.testBit_mask (f : FieldInfo_t) (h1 : f.lsb ≤ f.msb) (h2 : f.msb ≤ 31)
    (i : Nat) :
    f.mask.testBit i = (decide (f.lsb ≤ i) && decide (i ≤ f.msb)) := by
  rw [f.mask_eq h1 h2, Nat.testBit_shiftLeft, Nat.testBit_two_pow_sub_one]
  unfold FieldInfo_t.width
  rw [Bool.eq_iff_iff]
  simp only [Bool.and_eq_true, decide_eq_true_eq, ge_iff_le]
  omega

/-- Extracting a field right after setting it returns the written value
masked to the field's width. -/
theorem extract_set_field (f : FieldInfo_t) (h1 : f.lsb ≤ f.msb) (h2 : f.msb ≤ 31)
    (w v : Nat) :
    extract_field_value f (set_field_value f w v) = v &&& (2 ^ f.width - 1) := by
  apply Nat.eq_of_testBit_eq
  intro i
  simp only [extract_field_value, set_field_value, Nat.testBit_shiftRight, Nat.testBit_land,
    Nat.testBit_lor, Nat.testBit_xor, hFFFF, Nat.testBit_two_pow_sub_one,
    Nat.testBit_mod_two_pow, Nat.testBit_shiftLeft, f.testBit_mask h1 h2]
  by_cases hc : f.lsb + i ≤ f.msb
  · have e1 : i < f.width := by unfold FieldInfo_t.width; omega
    have e2 : f.lsb + i < 32 := by omega
    have e3 : f.lsb + i - f.lsb = i := by omega
    simp [hc, e1, e2, e3]
  · have e1 : ¬ i < f.width := by unfold FieldInfo_t.width; omega
    simp [hc, e1]

/-- Setting a field leaves every bit outside the field's mask unchanged
(for a 32-bit word). -/
theorem set_field_outside (f : FieldInfo_t) (w v : Nat) (hw : w < 2 ^ 32)
    (i : Nat) (hi : f.mask.testBit i = false) :
    (set_field_value f w v).testBit i = w.testBit i := by
  simp only [set_field_value, Nat.testBit_lor, Nat.testBit_land, Nat.testBit_xor, hFFFF,
    Nat.testBit_two_pow_sub_one, Nat.testBit_mod_two_pow, hi, Bool.and_false, Bool.or_false,
    Bool.false_xor]
  by_cases hc : i < 32
  · simp [hc]
  · have hz : w.testBit i = false := by
      apply Nat.testBit_lt_two_pow
      exact lt_of_lt_of_le hw (Nat.pow_le_pow_right (by norm_num) (by omega))
    simp [hc, hz]

/-- A successful field lookup yields a well-formed catalog field. -/
theorem get_dmreg_field_wf (reg : DMReg_t) (fname : String) (f : FieldInfo_t)
    (hf : get_dmreg_field reg fname = some f) : f.lsb ≤ f.msb ∧ f.msb ≤ 31 :=
  catalog_fields_wf reg f (List.mem_of_find?_eq_some hf)

/-- Claim C1: for every DM register id, every field `f` of that register,
every 32-bit word `w` and every 32-bit value `v`, extracting field `f` from
`set(id, f, w, v)` returns `v` masked to the field's width, and every bit of
`set(id, f, w, v)` outside the field's mask equals the corresponding bit of
`w` (32-bit-wide fields, whose mask is all-ones, included). -/
theorem C1_set_extract_roundtrip (reg : DMReg_t) (fname : String) (f : FieldInfo_t)
    (hf : get_dmreg_field reg fname = some f) (w v : Nat)
    (hw : w < 2 ^ 32) (hv : v < 2 ^ 32) :
    ∃ s, set_dmreg_field reg fname w v = some s ∧
      extract_dmreg_field reg fname s = some (v &&& (2 ^ f.width - 1)) ∧
      ∀ i, f.mask.testBit i = false → s.testBit i = w.testBit i := by
  obtain ⟨h1, h2⟩ := get_dmreg_field_wf reg fname f hf
  refine ⟨set_field_value f w v, ?_, ?_, ?_⟩
  · simp [set_dmreg_field, hf]
  · simp [extract_dmreg_field, hf, extract_set_field f h1 h2 w v]
  · intro i hi
    exact set_field_outside f w v hw i hi

/-- Claim C1, instantiated: the 32-bit-wide field `pc` of `DPC` (mask
all-ones) at concrete words. -/
theorem C1_set_extract_roundtrip_witness :
    ∃ s, set_dmreg_field DMReg_t.DPC "pc" 0x12345678 0xDEADBEEF = some s ∧
      extract_dmreg_field DMReg_t.DPC "pc" s =
        some (0xDEADBEEF &&& (2 ^ (FieldInfo_t.width ⟨"pc", 31, 0⟩) - 1)) ∧
      ∀ i, (FieldInfo_t.mask ⟨"pc", 31, 0⟩).testBit i = false →
        s.testBit i = (0x12345678 : Nat).testBit i :=
  C1_set_extract_roundtrip DMReg_t.DPC "pc" ⟨"pc", 31, 0⟩ (by decide)
    0x12345678 0xDEADBEEF (by norm_num) (by norm_num)

/-! ## Transport model and DM access layer (backend.cpp)

The transport (`transport_->read_reg` / `write_reg`) is modelled as an
oracle of read results — `reads k` is the value returned by the `k`-th
transport read — together with a trace of the register writes issued.  The
model covers a connected transport whose individual reads and writes
succeed (`CHECK_TRANSPORT` passes and `transport_->read_reg`/`write_reg`
return `RCODE_OK`); the DM register values read are unconstrained. -/

/-- The transport model: the read oracle, how many reads have been issued,
and the `(addr, value)` writes issued so far, in order. -/
structure Trans where
  reads : Nat → Nat
  nreads : Nat
  writes : List (Nat × Nat)

/-- One `transport_->read_reg` call: consume the next oracle value. -/
def trans_read (t : Trans) : Nat × Trans :=
  (t.reads t.nreads, { t with nreads := t.nreads + 1 })

/-- One `transport_->write_reg` call: append to the write trace. -/
def trans_write (t : Trans) (addr value : Nat) : Trans :=
  { t with writes := t.writes ++ [(addr, value)] }

/-- `Backend::dmreg_wr`: write the register's wire address. -/
def dmreg_wr (t : Trans) (reg : DMReg_t) (value : Nat) : Int × Trans :=
  (RCODE_OK, trans_write t (get_dmreg_addr reg) value)

/-- `Backend::dmreg_wrfield` (backend.cpp 1096-1119): look the field up
(`RCODE_INVALID_ARG` on a miss), read the current register word, substitute
the field with `set_dmreg_field`, and write the modified word back. -/
def dmreg_wrfield (t : Trans) (reg : DMReg_t) (fieldname : String) (value : Nat) :
    Int × Trans :=
  match get_dmreg_field reg fieldname with
  | none => (RCODE_INVALID_ARG, t)
  | some finfo =>
    let curr := trans_read t
    let new_reg_value := set_field_value finfo curr.1 value
    (RCODE_OK, trans_write curr.2 (get_dmreg_addr reg) new_reg_value)

/-- The retry loop of `Backend::dmreg_pollfield`: up to the given number of
attempts, read the register, extract the field, stop with `RCODE_OK` when
the expected value is observed; `RCODE_TIMEOUT` when attempts run out,
with the last extracted value (initially 0) as the final value. -/
def poll_loop (addr mask lsb exp_value : Nat) : Nat → Nat → Trans → Int × Nat × Trans
  | 0, value, t => (RCODE_TIMEOUT, value, t)
  | n + 1, _, t =>
    let r := trans_read t
    let v := (r.1 &&& mask) >>> lsb
    if v = exp_value then (RCODE_OK, v, r.2)
    else poll_loop addr mask lsb exp_value n v r.2

/-- `Backend::dmreg_pollfield` (backend.cpp 1121-1173): look the field up
(`RCODE_INVALID_ARG` on a miss leaves the out-parameter untouched, hence
`none`), then run the retry loop; on success and on timeout the final
field value is stored through the out-parameter (`some`).  The
`delay_ms` sleeps do not affect the returned values and are not modelled. -/
def dmreg_pollfield (t : Trans) (reg : DMReg_t) (fieldname : String)
    (exp_value max_retries : Nat) : Int × Option Nat × Trans :=
  match get_dmreg_field reg fieldname with
  | none => (RCODE_INVALID_ARG, none, t)
  | some finfo =>
    let r := poll_loop (get_dmreg_addr reg) finfo.mask finfo.lsb exp_value max_retries 0 t
    (r.1, some r.2.1, r.2.2)

/-! ## Claim C3: dmreg_wrfield is a read-modify-write -/

/-- Claim C3: for every register, valid field `f` and value `v`, a
successful `wr_field` writes back exactly one word, whose bits inside
`f`'s mask encode `v` (extracting `f` from it gives `v` masked to the
field's width) and whose bits outside `f`'s mask are exactly the bits of
the word `w` read from the register at the start of the operation. -/
theorem C3_wrfield_frame (t : Trans) (reg : DMReg_t) (fname : String) (v : Nat)
    (f : FieldInfo_t) (hf : get_dmreg_field reg fname = some f)
    (hw : t.reads t.nreads < 2 ^ 32) :
    ∃ s, dmreg_wrfield t reg fname v =
        (RCODE_OK, { t with nreads := t.nreads + 1,
                            writes := t.writes ++ [(get_dmreg_addr reg, s)] }) ∧
      extract_field_value f s = v &&& (2 ^ f.width - 1) ∧
      ∀ i, f.mask.testBit i = false → s.testBit i = (t.reads t.nreads).testBit i := by
  obtain ⟨h1, h2⟩ := get_dmreg_field_wf reg fname f hf
  refine ⟨set_field_value f (t.reads t.nreads) v, ?_, ?_, ?_⟩
  · simp [dmreg_wrfield, hf, trans_read, trans_write]
  · exact extract_set_field f h1 h2 _ v
  · intro i hi
    exact set_field_outside f _ v hw i hi

/-- Claim C3, instantiated: writing `injectreq` of `DCTRL` when the
current register word reads as `0xA5A5A5A5`. -/
theorem C3_wrfield_frame_witness :
    ∃ s, dmreg_wrfield ⟨fun _ => 0xA5A5A5A5, 0, []⟩ DMReg_t.DCTRL "injectreq" 1 =
        (RCODE_OK, { reads := fun _ => 0xA5A5A5A5, nreads := 1,
                     writes := [(get_dmreg_addr DMReg_t.DCTRL, s)] }) ∧
      extract_field_value ⟨"injectreq", 6, 6⟩ s =
        1 &&& (2 ^ (FieldInfo_t.width ⟨"injectreq", 6, 6⟩) - 1) ∧
      ∀ i, (FieldInfo_t.mask ⟨"injectreq", 6, 6⟩).testBit i = false →
        s.testBit i = (0xA5A5A5A5 : Nat).testBit i :=
  C3_wrfield_frame ⟨fun _ => 0xA5A5A5A5, 0, []⟩ DMReg_t.DCTRL "injectreq" 1
    ⟨"injectreq", 6, 6⟩ (by decide) (by norm_num)

/-! ## Claim C2: dmreg_pollfield -/

/-- The poll loop consumes at most as many transport reads as it has
attempts. -/
theorem poll_loop_nreads (addr mask lsb exp_value : Nat) :
    ∀ n value (t : Trans),
      ((poll_loop addr mask lsb exp_value n value t).2.2).nreads ≤ t.nreads + n := by
  intro n
  induction n with
  | zero => intro value t; simp [poll_loop]
  | succ n ih =>
    intro value t
    simp only [poll_loop, trans_read]
    by_cases hc : (t.reads t.nreads &&& mask) >>> lsb = exp_value
    · simp [hc]
    · simp only [hc, if_false, ite_false]
      calc ((poll_loop addr mask lsb exp_value n _ _).2.2).nreads
          ≤ t.nreads + 1 + n := ih _ _
        _ = t.nreads + (n + 1) := by omega

/-- If none of the `n` values read matches, the poll loop times out after
exactly `n` reads, returning the last extracted value (its initial
accumulator when `n = 0`). -/
theorem poll_loop_timeout (addr mask lsb exp_value : Nat) :
    ∀ n value (t : Trans),
      (∀ k, k < n → (t.reads (t.nreads + k) &&& mask) >>> lsb ≠ exp_value) →
      poll_loop addr mask lsb exp_value n value t =
        (RCODE_TIMEOUT,
         if n = 0 then value else (t.reads (t.nreads + (n - 1)) &&& mask) >>> lsb,
         { t with nreads := t.nreads + n }) := by
  intro n
  induction n with
  | zero => intro value t _; simp [poll_loop]
  | succ n ih =>
    intro value t h
    have h0 : (t.reads (t.nreads + 0) &&& mask) >>> lsb ≠ exp_value := h 0 (by omega)
    simp only [Nat.add_zero] at h0
    simp only [poll_loop, trans_read, h0, ite_false]
    rw [ih _ _ (by intro k hk; simpa [Nat.add_assoc, Nat.add_comm 1 k] using h (k + 1) (by omega))]
    by_cases hn : n = 0
    · subst hn
      simp
    · have e1 : ¬ n + 1 = 0 := by omega
      have e2 : t.nreads + 1 + (n - 1) = t.nreads + (n + 1 - 1) := by omega
      simp only [hn, ite_false, e1, e2]
      have e3 : t.nreads + 1 + n = t.nreads + (n + 1) := by omega
      rw [e3]

/-- If the `j`-th value read (0-based) is the first match, the poll loop
succeeds after exactly `j + 1` reads and returns the expected value. -/
theorem poll_loop_success (addr mask lsb exp_value : Nat) :
    ∀ n value (t : Trans) j, j < n →
      (t.reads (t.nreads + j) &&& mask) >>> lsb = exp_value →
      (∀ k, k < j → (t.reads (t.nreads + k) &&& mask) >>> lsb ≠ exp_value) →
      poll_loop addr mask lsb exp_value n value t =
        (RCODE_OK, exp_value, { t with nreads := t.nreads + j + 1 }) := by
  intro n
  induction n with
  | zero => intro value t j hj; omega
  | succ n ih =>
    intro value t j hj hhit hmin
    match j with
    | 0 =>
      simp only [Nat.add_zero] at hhit
      simp [poll_loop, trans_read, hhit]
    | j + 1 =>
      have h0 : (t.reads (t.nreads + 0) &&& mask) >>> lsb ≠ exp_value := hmin 0 (by omega)
      simp only [Nat.add_zero] at h0
      simp only [poll_loop, trans_read, h0, ite_false]
      rw [ih _ _ j (by omega)
        (by simpa [Nat.add_assoc, Nat.add_comm 1 j] using hhit)
        (by intro k hk; simpa [Nat.add_assoc, Nat.add_comm 1 k] using hmin (k + 1) (by omega))]
      have e : t.nreads + 1 + j + 1 = t.nreads + (j + 1) + 1 := by omega
      rw [e]

/-- Claim C2: for every register and valid field, `poll_field` with
`max_retries` attempts (a) issues at most `max_retries` transport reads;
(b) returns `RCODE_OK` with the expected value the first time the
extracted field value equals it, after exactly that many reads; and
(c) when the expected value is never observed within `max_retries ≥ 1`
reads, returns `RCODE_TIMEOUT` and stores the last observed field value
through the out-parameter. -/
theorem C2_pollfield (t : Trans) (reg : DMReg_t) (fname : String)
    (exp_value n : Nat) (f : FieldInfo_t) (hf : get_dmreg_field reg fname = some f) :
    ((dmreg_pollfield t reg fname exp_value n).2.2.nreads ≤ t.nreads + n) ∧
    (∀ j, j < n → (t.reads (t.nreads + j) &&& f.mask) >>> f.lsb = exp_value →
      (∀ k, k < j → (t.reads (t.nreads + k) &&& f.mask) >>> f.lsb ≠ exp_value) →
      dmreg_pollfield t reg fname exp_value n =
        (RCODE_OK, some exp_value, { t with nreads := t.nreads + j + 1 })) ∧
    ((∀ k, k < n → (t.reads (t.nreads + k) &&& f.mask) >>> f.lsb ≠ exp_value) → 1 ≤ n →
      dmreg_pollfield t reg fname exp_value n =
        (RCODE_TIMEOUT, some ((t.reads (t.nreads + (n - 1)) &&& f.mask) >>> f.lsb),
         { t with nreads := t.nreads + n })) := by
  refine ⟨?_, ?_, ?_⟩
  · simp only [dmreg_pollfield, hf]
    exact poll_loop_nreads _ _ _ _ n 0 t
  · intro j hj hhit hmin
    simp only [dmreg_pollfield, hf]
    rw [poll_loop_success _ _ _ _ n 0 t j hj hhit hmin]
  · intro hmiss hn
    simp only [dmreg_pollfield, hf]
    rw [poll_loop_timeout _ _ _ _ n 0 t hmiss]
    have e : ¬ n = 0 := by omega
    simp only [e, ite_false]

/-- Claim C2, instantiated: polling `DCTRL.stepstate` for value 2 with
read oracle `k <<< 4` hits at the third read (j = 2) of 3 attempts. -/
theorem C2_pollfield_witness :
    ((dmreg_pollfield ⟨fun k => k <<< 4, 0, []⟩ DMReg_t.DCTRL "stepstate" 2 3).2.2.nreads
        ≤ 0 + 3) ∧
    (∀ j, j < 3 →
      (((fun k => k <<< 4) (0 + j) : Nat) &&& (FieldInfo_t.mask ⟨"stepstate", 5, 4⟩)) >>>
          (FieldInfo_t.lsb ⟨"stepstate", 5, 4⟩) = 2 →
      (∀ k, k < j →
        (((fun k => k <<< 4) (0 + k) : Nat) &&& (FieldInfo_t.mask ⟨"stepstate", 5, 4⟩)) >>>
          (FieldInfo_t.lsb ⟨"stepstate", 5, 4⟩) ≠ 2) →
      dmreg_pollfield ⟨fun k => k <<< 4, 0, []⟩ DMReg_t.DCTRL "stepstate" 2 3 =
        (RCODE_OK, some 2, { reads := fun k => k <<< 4, nreads := 0 + j + 1, writes := [] })) ∧
    ((∀ k, k < 3 →
        (((fun k => k <<< 4) (0 + k) : Nat) &&& (FieldInfo_t.mask ⟨"stepstate", 5, 4⟩)) >>>
          (FieldInfo_t.lsb ⟨"stepstate", 5, 4⟩) ≠ 2) → 1 ≤ 3 →
      dmreg_pollfield ⟨fun k => k <<< 4, 0, []⟩ DMReg_t.DCTRL "stepstate" 2 3 =
        (RCODE_TIMEOUT,
         some ((((fun k => k <<< 4) (0 + (3 - 1)) : Nat) &&&
            (FieldInfo_t.mask ⟨"stepstate", 5, 4⟩)) >>> (FieldInfo_t.lsb ⟨"stepstate", 5, 4⟩)),
         { reads := fun k => k <<< 4, nreads := 0 + 3, writes := [] })) :=
  C2_pollfield ⟨fun k => k <<< 4, 0, []⟩ DMReg_t.DCTRL "stepstate" 2 3
    ⟨"stepstate", 5, 4⟩ (by decide)

/-! ## Claim C9: inject_instruction with no selection -/

/-- The cached current warp/thread selection (`state_.selected_wid`,
`state_.selected_tid`, both C `int` initialised to -1). -/
structure SelState where
  selected_wid : Int
  selected_tid : Int

/-- `Backend::inject_instruction` (backend.cpp 632-649): `CHECK_SELECTED`
first (return `RCODE_NONESELECTED_ERR` when either cached id is negative),
then write `DINJECT`, request injection through `DCTRL.injectreq`, and
poll `DCTRL.injectstate` back to 0 (each step short-circuits its error
code, as `CHECK_ERR` does). -/
def inject_instruction (st : SelState) (t : Trans) (instruction poll_retries : Nat) :
    Int × Trans :=
  if st.selected_wid < 0 ∨ st.selected_tid < 0 then (RCODE_NONESELECTED_ERR, t)
  else
    let r1 := dmreg_wr t DMReg_t.DINJECT instruction
    if r1.1 ≠ RCODE_OK then r1
    else
      let r2 := dmreg_wrfield r1.2 DMReg_t.DCTRL "injectreq" 1
      if r2.1 ≠ RCODE_OK then r2
      else
        let r3 := dmreg_pollfield r2.2 DMReg_t.DCTRL "injectstate" 0 poll_retries
        (if r3.1 ≠ RCODE_OK then r3.1 else RCODE_OK, r3.2.2)

/-- Claim C9: whenever no current warp/thread pointer is set (cached
selected warp id or thread id negative), `inject_instruction` returns the
none-selected error code -8 and leaves the transport state untouched: no
DM register write (neither `DINJECT` nor `DCTRL`) and no read is issued. -/
theorem C9_inject_none_selected (st : SelState) (t : Trans) (instruction poll_retries : Nat)
    (h : st.selected_wid < 0 ∨ st.selected_tid < 0) :
    inject_instruction st t instruction poll_retries = (RCODE_NONESELECTED_ERR, t) ∧
    RCODE_NONESELECTED_ERR = -8 := by
  refine ⟨?_, rfl⟩
  simp [inject_instruction, h]

/-- Claim C9, instantiated at the reset selection (-1, -1). -/
theorem C9_inject_none_selected_witness :
    inject_instruction ⟨-1, -1⟩ ⟨fun _ => 0, 0, []⟩ 19 10 =
      (RCODE_NONESELECTED_ERR, ⟨fun _ => 0, 0, []⟩) ∧
    RCODE_NONESELECTED_ERR = -8 :=
  C9_inject_none_selected ⟨-1, -1⟩ ⟨fun _ => 0, 0, []⟩ 19 10 (Or.inl (by norm_num))

/-! ## Claim C4: t0 across read_csr / write_csr (backend.cpp 685-718)

The selected hart is modelled by its `t0` register, the `DSCRATCH`
mailbox (the `vx_dscratch` CSR and the paired DM register hold the same
word) and the other CSRs.  `read_csr` and `write_csr` are straight-line
sequences of seven transport-backed operations (instruction injections
and DSCRATCH reads/writes); `fail_at` injects a transport failure at the
given step, in which case — exactly as `CHECK_ERR` does — the function
returns the error code at once, with the hart left as the completed
steps made it. -/

/-- The observable state of the selected hart. -/
structure Hart where
  t0 : Nat
  dscratch : Nat
  csr : Nat → Nat

/-- `Backend::read_csr`: save t0 via DSCRATCH (ops 0-1), move the CSR to
DSCRATCH through t0 (ops 2-3), read the value (op 4), restore t0
(ops 5-6).  The third component is the out-parameter `value`, assigned at
op 4. -/
def read_csr (fail_at : Option Nat) (m : Hart) (regaddr : Nat) : Int × Hart × Option Nat :=
  -- op 0: inject csrw vx_dscratch, t0
  if fail_at = some 0 then (RCODE_ERROR, m, none) else
  let m0 : Hart := { m with dscratch := m.t0 }
  -- op 1: dmreg_rd DSCRATCH -> t0_val
  if fail_at = some 1 then (RCODE_ERROR, m0, none) else
  let t0_val := m0.dscratch
  -- op 2: inject csrr t0, <csr>
  if fail_at = some 2 then (RCODE_ERROR, m0, none) else
  let m2 : Hart := { m0 with t0 := m0.csr regaddr }
  -- op 3: inject csrw vx_dscratch, t0
  if fail_at = some 3 then (RCODE_ERROR, m2, none) else
  let m3 : Hart := { m2 with dscratch := m2.t0 }
  -- op 4: dmreg_rd DSCRATCH -> value
  if fail_at = some 4 then (RCODE_ERROR, m3, none) else
  let value := m3.dscratch
  -- op 5: dmreg_wr DSCRATCH, t0_val
  if fail_at = some 5 then (RCODE_ERROR, m3, some value) else
  let m5 : Hart := { m3 with dscratch := t0_val }
  -- op 6: inject csrr t0, vx_dscratch
  if fail_at = some 6 then (RCODE_ERROR, m5, some value) else
  let m6 : Hart := { m5 with t0 := m5.dscratch }
  (RCODE_OK, m6, some value)

/-- `Backend::write_csr`: save t0 via DSCRATCH (ops 0-1), place the value
in DSCRATCH (op 2), move it to the CSR through t0 (ops 3-4), restore t0
(ops 5-6). -/
def write_csr (fail_at : Option Nat) (m : Hart) (regaddr value : Nat) : Int × Hart :=
  -- op 0: inject csrw vx_dscratch, t0
  if fail_at = some 0 then (RCODE_ERROR, m) else
  let m0 : Hart := { m with dscratch := m.t0 }
  -- op 1: dmreg_rd DSCRATCH -> t0_val
  if fail_at = some 1 then (RCODE_ERROR, m0) else
  let t0_val := m0.dscratch
  -- op 2: dmreg_wr DSCRATCH, value
  if fail_at = some 2 then (RCODE_ERROR, m0) else
  let m2 : Hart := { m0 with dscratch := value }
  -- op 3: inject csrr t0, vx_dscratch
  if fail_at = some 3 then (RCODE_ERROR, m2) else
  let m3 : Hart := { m2 with t0 := m2.dscratch }
  -- op 4: inject csrw <csr>, t0
  if fail_at = some 4 then (RCODE_ERROR, m3) else
  let m4 : Hart := { m3 with csr := fun a => if a = regaddr then m3.t0 else m3.csr a }
  -- op 5: dmreg_wr DSCRATCH, t0_val
  if fail_at = some 5 then (RCODE_ERROR, m4) else
  let m5 : Hart := { m4 with dscratch := t0_val }
  -- op 6: inject csrr t0, vx_dscratch
  if fail_at = some 6 then (RCODE_ERROR, m5) else
  let m6 : Hart := { m5 with t0 := m5.dscratch }
  (RCODE_OK, m6)

/-- Claim C4 fails on the code: with initial `t0 = 5` and CSR value 7, a
transport failure at op 4 of `read_csr` (reading DSCRATCH after the CSR
was moved into t0) makes `read_csr` exit with `t0 = 7 ≠ 5`; likewise a
failure at op 4 of `write_csr` (writing t0 to the CSR) of value 9 exits
with `t0 = 9 ≠ 5`.  The error exit paths do not restore t0 — the slip the
source itself marks with a TODO comment. -/
theorem C4_t0_not_restored_on_error :
    ((read_csr (some 4) ⟨5, 0, fun _ => 7⟩ 0x301).1 ≠ RCODE_OK ∧
      ((read_csr (some 4) ⟨5, 0, fun _ => 7⟩ 0x301).2.1).t0 = 7 ∧ (7 : Nat) ≠ 5) ∧
    ((write_csr (some 4) ⟨5, 0, fun _ => 7⟩ 0x301 9).1 ≠ RCODE_OK ∧
      ((write_csr (some 4) ⟨5, 0, fun _ => 7⟩ 0x301 9).2).t0 = 9 ∧ (9 : Nat) ≠ 5) := by
  refine ⟨⟨?_, rfl, by norm_num⟩, ⟨?_, rfl, by norm_num⟩⟩
  · intro h
    simp only [read_csr, RCODE_ERROR, RCODE_OK] at h
    norm_num at h
  · intro h
    simp only [write_csr, RCODE_ERROR, RCODE_OK] at h
    norm_num at h

/-- On the fully successful path both operations do restore t0 (the
invariant holds on the success exit; only the error exits break it). -/
theorem csr_access_success_restores_t0 (m : Hart) (regaddr value : Nat) :
    ((read_csr none m regaddr).2.1).t0 = m.t0 ∧
    ((write_csr none m regaddr value).2).t0 = m.t0 := by
  constructor <;> rfl

/-! ## Memory access (backend.cpp 789-954) and breakpoints (958-1010)

Target memory is a byte function `Nat → Nat`.  `read_mem` and `write_mem`
are embedded on their success path: the injected `lw`/`sw`/`addi`
sequences and the t0/t1 save-restore marshaling through DSCRATCH reduce,
on a functioning target, to whole-word loads and stores at word-aligned
addresses, which is what the model performs.  A word is little-endian:
byte 0 is the least-significant octet (`WordBytes_t`). -/

/-- Assemble a little-endian word from four bytes (`WordBytes_t.word`). -/
def word_of_bytes (b0 b1 b2 b3 : Nat) : Nat := b0 + 256 * b1 + 65536 * b2 + 16777216 * b3

/-- The word a `lw` at word-aligned address `a` returns. -/
def word_at (mem : Nat → Nat) (a : Nat) : Nat :=
  word_of_bytes (mem a) (mem (a + 1)) (mem (a + 2)) (mem (a + 3))

/-- The four little-endian bytes of a word (`WordBytes_t.bytes`). -/
def word_bytes (w : Nat) : List Nat :=
  [w &&& 255, (w >>> 8) &&& 255, (w >>> 16) &&& 255, (w >>> 24) &&& 255]

/-- `WordBytes_t.word` of the first four bytes of a buffer. -/
def word_of_list : List Nat → Nat
  | b0 :: b1 :: b2 :: b3 :: _ => word_of_bytes b0 b1 b2 b3
  | _ => 0

/-- The memory after a `sw` of `w` at word-aligned address `a`. -/
def write_word (mem : Nat → Nat) (a w : Nat) : Nat → Nat := fun x =>
  if x = a then w &&& 255
  else if x = a + 1 then (w >>> 8) &&& 255
  else if x = a + 2 then (w >>> 16) &&& 255
  else if x = a + 3 then (w >>> 24) &&& 255
  else mem x

/-- The word loop of `read_mem`: `n` words loaded from `start` on, each
spread into four buffer bytes (the `memcpy` into `data[i..i+3]`). -/
def read_words (mem : Nat → Nat) : Nat → Nat → List Nat
  | _start, 0 => []
  | start, n + 1 => word_bytes (word_at mem start) ++ read_words mem (start + 4) n

/-- `Backend::read_mem` (backend.cpp 789-849).  Zero bytes: return
`RCODE_OK` at once — before the buffer is cleared, so the incoming buffer
is returned unchanged — with no injection and no DM register access.
Otherwise: word-align the range (`addr & ~3` to `(addr+nbytes+3) & ~3`),
read it word by word, then trim the leading `addr - start` bytes and
truncate to `nbytes`.  The third component counts the transport
operations issued (instruction injections plus DM register accesses):
save t0,t1 = 4, set up the address = 2, four per word, restore = 4,
total `10 + size_in_bytes`. -/
def read_mem (mem : Nat → Nat) (addr nbytes : Nat) (data : List Nat) :
    Int × List Nat × Nat :=
  if nbytes = 0 then (RCODE_OK, data, 0)
  else
    let start_addr := addr - addr % 4
    let end_addr := (addr + nbytes + 3) - (addr + nbytes + 3) % 4
    let size_in_bytes := end_addr - start_addr
    let buf := read_words mem start_addr (size_in_bytes / 4)
    let head_offset := addr - start_addr
    (RCODE_OK, (buf.drop head_offset).take nbytes, 10 + size_in_bytes)

/-- Group a byte buffer into full little-endian words (the data consumed
by the middle loop of `write_mem`); a trailing group of fewer than four
bytes is left to the trailing-partial-word step. -/
def words_of_bytes : List Nat → List Nat
  | b0 :: b1 :: b2 :: b3 :: rest => word_of_bytes b0 b1 b2 b3 :: words_of_bytes rest
  | _ => []

/-- The middle loop of `write_mem`: store each word at `cur`, `cur+4`, … -/
def write_words : (Nat → Nat) → Nat → List Nat → Nat → Nat
  | mem, _cur, [] => mem
  | mem, cur, w :: ws => write_words (write_word mem cur w) (cur + 4) ws

/-- Patch `take_n` bytes of the word `orig`, starting at byte `head`,
with the front of `data` (the byte-wise `value.bytes[i] = data[idx++]`
of the partial-word steps). -/
def patch_word (orig head take_n : Nat) (data : List Nat) : Nat :=
  word_of_list ((List.range 4).map (fun i =>
    if head ≤ i ∧ i < head + take_n then data.getD (i - head) 0
    else (word_bytes orig).getD i 0))

/-- `Backend::write_mem` (backend.cpp 852-954): nothing for an empty
buffer; otherwise a leading partial word (read-patch-write) when `addr`
is unaligned, then full words, then a trailing partial word
(read-patch-write) for the last one to three bytes. -/
def write_mem (mem : Nat → Nat) (addr : Nat) (data : List Nat) : Int × (Nat → Nat) :=
  if data.length = 0 then (RCODE_OK, mem)
  else
    let end_addr := addr + data.length
    let head := addr % 4
    let lead :=
      if head ≠ 0 then
        let base := addr - head
        let take1 := min (4 - head) data.length
        let patched := patch_word (word_at mem base) head take1 data
        (write_word mem base patched, addr + take1, data.drop take1)
      else (mem, addr, data)
    let mem1 := lead.1
    let cur1 := lead.2.1
    let rest1 := lead.2.2
    let nw := (end_addr - cur1) / 4
    let mem2 := write_words mem1 cur1 (words_of_bytes rest1)
    let cur2 := cur1 + 4 * nw
    let rest2 := rest1.drop (4 * nw)
    if cur2 < end_addr then
      let base := cur2 - cur2 % 4
      let patched := patch_word (word_at mem2 base) 0 (end_addr - cur2) rest2
      (RCODE_OK, write_word mem2 base patched)
    else (RCODE_OK, mem2)

/-! ## Byte/word round-trip lemmas -/

theorem land_255_eq_mod (x : Nat) : x &&& 255 = x % 256 := by
  apply Nat.eq_of_testBit_eq
  intro i
  rw [Nat.testBit_land, show (255 : Nat) = 2 ^ 8 - 1 by norm_num,
    Nat.testBit_two_pow_sub_one, show (256 : Nat) = 2 ^ 8 by norm_num, Nat.testBit_mod_two_pow]
  rw [Bool.and_comm]

theorem word_bytes_eq (w : Nat) :
    word_bytes w = [w % 256, w / 256 % 256, w / 65536 % 256, w / 16777216 % 256] := by
  simp [word_bytes, land_255_eq_mod, Nat.shiftRight_eq_div_pow]

theorem word_of_bytes_lt (b0 b1 b2 b3 : Nat) (h0 : b0 < 256) (h1 : b1 < 256)
    (h2 : b2 < 256) (h3 : b3 < 256) : word_of_bytes b0 b1 b2 b3 < 2 ^ 32 := by
  unfold word_of_bytes
  omega

theorem word_bytes_of_bytes (b0 b1 b2 b3 : Nat) (h0 : b0 < 256) (h1 : b1 < 256)
    (h2 : b2 < 256) (h3 : b3 < 256) :
    word_bytes (word_of_bytes b0 b1 b2 b3) = [b0, b1, b2, b3] := by
  rw [word_bytes_eq]
  unfold word_of_bytes
  refine List.ext_getElem (by simp) ?_
  intro i hi hj
  match i, hi with
  | 0, _ => simp; omega
  | 1, _ => simp; omega
  | 2, _ => simp; omega
  | 3, _ => simp; omega

theorem word_of_list_word_bytes (w : Nat) (hw : w < 2 ^ 32) :
    word_of_list (word_bytes w) = w := by
  rw [word_bytes_eq]
  show word_of_bytes (w % 256) (w / 256 % 256) (w / 65536 % 256) (w / 16777216 % 256) = w
  unfold word_of_bytes
  omega

theorem word_at_lt (mem : Nat → Nat) (a : Nat) (hb : ∀ x, mem x < 256) :
    word_at mem a < 2 ^ 32 :=
  word_of_bytes_lt _ _ _ _ (hb a) (hb (a + 1)) (hb (a + 2)) (hb (a + 3))

theorem word_of_bytes_split (w : Nat) (hw : w < 2 ^ 32) :
    word_of_bytes (w % 256) (w / 256 % 256) (w / 65536 % 256) (w / 16777216 % 256) = w := by
  unfold word_of_bytes
  omega

/-- Storing a word assembled from four bytes and reading the four
locations back recovers the bytes. -/
theorem write_word_read_back (mem : Nat → Nat) (a b0 b1 b2 b3 : Nat)
    (h0 : b0 < 256) (h1 : b1 < 256) (h2 : b2 < 256) (h3 : b3 < 256) :
    write_word mem a (word_of_bytes b0 b1 b2 b3) a = b0 ∧
    write_word mem a (word_of_bytes b0 b1 b2 b3) (a + 1) = b1 ∧
    write_word mem a (word_of_bytes b0 b1 b2 b3) (a + 2) = b2 ∧
    write_word mem a (word_of_bytes b0 b1 b2 b3) (a + 3) = b3 := by
  unfold write_word
  refine ⟨?_, ?_, ?_, ?_⟩
  · rw [if_pos rfl, land_255_eq_mod]
    unfold word_of_bytes
    omega
  · rw [if_neg (by omega), if_pos rfl, land_255_eq_mod, Nat.shiftRight_eq_div_pow]
    unfold word_of_bytes
    norm_num
    omega
  · rw [if_neg (by omega), if_neg (by omega), if_pos rfl, land_255_eq_mod,
      Nat.shiftRight_eq_div_pow]
    unfold word_of_bytes
    norm_num
    omega
  · rw [if_neg (by omega), if_neg (by omega), if_neg (by omega), if_pos rfl,
      land_255_eq_mod, Nat.shiftRight_eq_div_pow]
    unfold word_of_bytes
    norm_num
    omega

/-- Reading four bytes at a word-aligned address returns exactly the four
little-endian bytes of the word there. -/
theorem read_mem_aligned4 (mem : Nat → Nat) (addr : Nat) (h4 : addr % 4 = 0)
    (data : List Nat) :
    (read_mem mem addr 4 data).2.1 = word_bytes (word_at mem addr) := by
  have e0 : addr - addr % 4 = addr := by omega
  have e1 : (addr + 4 + 3) - (addr + 4 + 3) % 4 = addr + 4 := by omega
  simp only [read_mem, if_neg (by norm_num : ¬ (4 : Nat) = 0), e0, e1]
  have e2 : addr + 4 - addr = 4 := by omega
  have e3 : addr - addr = 0 := by omega
  rw [e2, e3]
  norm_num [read_words, word_bytes]

/-- Writing four bytes at a word-aligned address stores exactly the
corresponding word. -/
theorem write_mem_aligned4 (mem : Nat → Nat) (addr : Nat) (h4 : addr % 4 = 0)
    (b0 b1 b2 b3 : Nat) :
    (write_mem mem addr [b0, b1, b2, b3]).2 =
      write_word mem addr (word_of_bytes b0 b1 b2 b3) := by
  simp only [write_mem, List.length_cons, List.length_nil]
  rw [if_neg (by norm_num)]
  simp only [h4, ne_eq, not_true_eq_false, if_neg, ite_false]
  have e1 : addr + 4 - addr = 4 := by omega
  simp only [e1]
  norm_num [words_of_bytes, write_words, List.drop]

/-! ## Breakpoints (backend.cpp 958-1010) -/

/-- `BreakPointInfo_t` of backend.h. -/
structure BreakPointInfo_t where
  enabled : Bool
  addr : Nat
  replaced_instr : Nat
  hit_count : Nat

/-- The engine state the breakpoint operations touch: target memory and
the breakpoint table (`std::unordered_map<uint32_t, BreakPointInfo_t>`,
modelled as a partial map). -/
structure BackendMem where
  mem : Nat → Nat
  breakpoints : Nat → Option BreakPointInfo_t

/-- Modelled from the spec: the external assembler collaborator
(`rv_asm` shells out to the RISC-V toolchain, which is not part of the
repository); the spec fixes `assemble("ebreak") = 0x00100073`
(§8, scenario B). -/
def ebreak_word : Nat := 0x00100073

/-- `Backend::set_breakpoint`: if an enabled breakpoint already exists at
`addr`, succeed without work; otherwise read the 4 instruction bytes at
`addr`, write the `ebreak` word there, and record
`{enabled := true, addr, replaced_instr, hit_count := 0}`. -/
def set_breakpoint (st : BackendMem) (addr : Nat) : Int × BackendMem :=
  if (st.breakpoints addr).elim false (fun bp => bp.enabled) then (RCODE_OK, st)
  else
    let instr := word_of_list (read_mem st.mem addr 4 []).2.1
    let mem2 := (write_mem st.mem addr (word_bytes ebreak_word)).2
    (RCODE_OK,
     ⟨mem2, fun a => if a = addr then some ⟨true, addr, instr, 0⟩ else st.breakpoints a⟩)

/-- `Backend::remove_breakpoint`: if no enabled breakpoint is recorded at
`addr`, succeed without work; otherwise write the stored original word
back at `addr` and erase the table entry. -/
def remove_breakpoint (st : BackendMem) (addr : Nat) : Int × BackendMem :=
  match st.breakpoints addr with
  | none => (RCODE_OK, st)
  | some bp =>
    if bp.enabled = false then (RCODE_OK, st)
    else
      let mem2 := (write_mem st.mem addr (word_bytes bp.replaced_instr)).2
      (RCODE_OK, ⟨mem2, fun a => if a = addr then none else st.breakpoints a⟩)

/-- Claim C5: for every word-aligned address with no breakpoint recorded
at it, `set_breakpoint` followed by `remove_breakpoint` leaves the four
bytes of target memory at `addr` byte-for-byte as they were, and the
breakpoint table afterwards has no entry for `addr`. -/
theorem C5_breakpoint_roundtrip (st : BackendMem) (addr : Nat) (h4 : addr % 4 = 0)
    (hbp : st.breakpoints addr = none) (hbytes : ∀ a, st.mem a < 256) :
    (∀ i, i < 4 →
      ((remove_breakpoint (set_breakpoint st addr).2 addr).2).mem (addr + i) =
        st.mem (addr + i)) ∧
    ((remove_breakpoint (set_breakpoint st addr).2 addr).2).breakpoints addr = none := by
  have horig : word_of_list (read_mem st.mem addr 4 []).2.1 = word_at st.mem addr := by
    rw [read_mem_aligned4 st.mem addr h4 [],
      word_of_list_word_bytes _ (word_at_lt st.mem addr hbytes)]
  have hset : set_breakpoint st addr =
      (RCODE_OK,
       ⟨(write_mem st.mem addr (word_bytes ebreak_word)).2,
        fun a => if a = addr then some ⟨true, addr, word_at st.mem addr, 0⟩
                 else st.breakpoints a⟩) := by
    simp only [set_breakpoint, hbp, Option.elim_none, ite_false, horig, Bool.false_eq_true]
  set st1 : BackendMem :=
      ⟨(write_mem st.mem addr (word_bytes ebreak_word)).2,
       fun a => if a = addr then some ⟨true, addr, word_at st.mem addr, 0⟩
                else st.breakpoints a⟩ with hst1
  have hbp1 : st1.breakpoints addr = some ⟨true, addr, word_at st.mem addr, 0⟩ := by
    simp [hst1]
  have hrem : remove_breakpoint st1 addr =
      (RCODE_OK,
       ⟨(write_mem st1.mem addr (word_bytes (word_at st.mem addr))).2,
        fun a => if a = addr then none else st1.breakpoints a⟩) := by
    rw [remove_breakpoint, hbp1]
    simp
  have hmem3 : (write_mem st1.mem addr (word_bytes (word_at st.mem addr))).2 =
      write_word st1.mem addr (word_at st.mem addr) := by
    conv_lhs => rw [word_bytes_eq]
    rw [write_mem_aligned4 st1.mem addr h4,
      word_of_bytes_split _ (word_at_lt st.mem addr hbytes)]
  have hback := write_word_read_back st1.mem addr (st.mem addr) (st.mem (addr + 1))
    (st.mem (addr + 2)) (st.mem (addr + 3)) (hbytes addr) (hbytes (addr + 1))
    (hbytes (addr + 2)) (hbytes (addr + 3))
  rw [hset]
  constructor
  · intro i hi
    show (remove_breakpoint st1 addr).2.mem (addr + i) = st.mem (addr + i)
    rw [hrem]
    show (write_mem st1.mem addr (word_bytes (word_at st.mem addr))).2 (addr + i) =
      st.mem (addr + i)
    rw [hmem3]
    show write_word st1.mem addr
      (word_of_bytes (st.mem addr) (st.mem (addr + 1)) (st.mem (addr + 2))
        (st.mem (addr + 3))) (addr + i) = st.mem (addr + i)
    interval_cases i
    · simpa using hback.1
    · exact hback.2.1
    · exact hback.2.2.1
    · exact hback.2.2.2
  · show (remove_breakpoint st1 addr).2.breakpoints addr = none
    rw [hrem]
    simp

/-- Claim C5, instantiated: memory constant 0x13 (`addi` opcode byte),
breakpoint set and removed at address 0x1000. -/
theorem C5_breakpoint_roundtrip_witness :
    (∀ i, i < 4 →
      ((remove_breakpoint
          (set_breakpoint ⟨fun _ => 0x13, fun _ => none⟩ 0x1000).2 0x1000).2).mem
        (0x1000 + i) = (fun _ => 0x13 : Nat → Nat) (0x1000 + i)) ∧
    ((remove_breakpoint
        (set_breakpoint ⟨fun _ => 0x13, fun _ => none⟩ 0x1000).2 0x1000).2).breakpoints
      0x1000 = none :=
  C5_breakpoint_roundtrip ⟨fun _ => 0x13, fun _ => none⟩ 0x1000 (by norm_num) rfl
    (fun _ => by norm_num)

/-! ## Claim C6: read_mem of zero bytes -/

/-- Claim C6 as the code has it: a zero-byte `read_mem` returns `RCODE_OK`
at once, issues no instruction injection and no DM register access, and
returns the output buffer unchanged (the early return precedes
`data.clear()`). -/
theorem C6_read_mem_zero (mem : Nat → Nat) (addr : Nat) (data : List Nat) :
    read_mem mem addr 0 data = (RCODE_OK, data, 0) := by
  simp [read_mem]

/-- Claim C6 as stated is false at a concrete input: with `[5]` already in
the output buffer, a zero-byte read leaves the buffer `[5]`, not empty. -/
theorem C6_read_mem_zero_counterexample :
    (read_mem (fun _ => 0) 0 0 [5]).2.1 = [5] ∧ ([5] : List Nat) ≠ [] := by
  exact ⟨rfl, by simp⟩

/-! ## GDB stub: packet framing (gdbstub.cpp 82-91, 204-272) -/

/-- One lowercase hex digit as `printf "%02x"` renders it ('0'-'9',
'a'-'f' as byte values). -/
def hex_digit (n : Nat) : Nat := if n < 10 then 48 + n else 87 + n

/-- `checksum_str`: sum the payload bytes in a `uint32_t` accumulator,
keep the low byte (`sum & 0xFF`), and render it as exactly two lowercase
hex digits. -/
def checksum_str (msg : List Nat) : List Nat :=
  let cs := (msg.foldl (fun acc c => (acc + c) % 2 ^ 32) 0) &&& 255
  [hex_digit (cs / 16), hex_digit (cs % 16)]

/-- `packetify`: `"$" + msg + "#" + checksum_str msg` ('$' = 36,
'#' = 35). -/
def packetify (msg : List Nat) : List Nat := [36] ++ msg ++ [35] ++ checksum_str msg

/-- The value `strtol(base 16)` gives for one character: decimal digits,
lowercase and uppercase hex letters. -/
def hex_val (c : Nat) : Option Nat :=
  if 48 ≤ c ∧ c ≤ 57 then some (c - 48)
  else if 97 ≤ c ∧ c ≤ 102 then some (c - 87)
  else if 65 ≤ c ∧ c ≤ 70 then some (c - 55)
  else none

/-- `strtol` restricted to the two received checksum characters: the
longest hex prefix of the two, 0 if there is none. -/
def strtol2 (c1 c2 : Nat) : Nat :=
  match hex_val c1 with
  | none => 0
  | some d1 =>
    match hex_val c2 with
    | none => d1
    | some d2 => 16 * d1 + d2

/-- The receive loop of `recv_packet`: accumulate the `uint8_t` checksum,
fail once the buffer holds `RECV_BUFSZ - 1 = 4095` bytes (packet too
long), append the byte, stop after appending `'#'`.  Returns the final
checksum, the buffer (`'#'` included) and the unread rest; `none` models
the error paths (socket failure, overlong packet). -/
def recv_loop : List Nat → Nat → List Nat → Option (Nat × List Nat × List Nat)
  | [], _, _ => none
  | c :: rest, checksum, buf =>
    let ck := (checksum + c) % 256
    if buf.length ≥ 4096 - 1 then none
    else if c = 35 then some (ck, buf ++ [c], rest)
    else recv_loop rest ck (buf ++ [c])

/-- `GDBStub::recv_packet` (gdbstub.cpp 204-272): dispatch on the first
byte ('+' ack and the 0x03 interrupt give `RCODE_OK` with the out-string
left empty; '-' and any byte other than '$' are errors), then collect up
to '#', read the two checksum characters, subtract '#' from the running
`uint8_t` checksum and compare.  On success `out` is
`"$" + buf + the two checksum characters`. -/
def recv_packet (stream : List Nat) : Option (List Nat) :=
  match stream with
  | [] => none
  | c :: rest =>
    if c = 43 then some []
    else if c = 45 then none
    else if c = 3 then some []
    else if c ≠ 36 then none
    else
      match recv_loop rest 0 [] with
      | none => none
      | some r =>
        let ck := (r.1 + 256 - 35) % 256
        match r.2.2 with
        | c1 :: c2 :: _ =>
          if ck = strtol2 c1 c2 then some (36 :: (r.2.1 ++ [c1, c2])) else none
        | _ => none

/-- `serve_forever`'s payload recovery: `pkt.substr(1, pkt.length() - 4)`
strips the '$' and the trailing `"#xx"`. -/
def strip_packet (pkt : List Nat) : List Nat := (pkt.drop 1).take (pkt.length - 4)

/-- Receive a packet and recover the command payload from it. -/
def depacketify (stream : List Nat) : Option (List Nat) :=
  (recv_packet stream).map strip_packet

/-! ## GDB stub: global thread-id map (gdbstub.cpp 129-136, 703-716) -/

/-- The thread map built in the `GDBStub` constructor: for each warp
`wid` in `[0, num_warps)` and local thread `l_tid` in `[0, num_threads)`,
record `1 + wid * num_threads + l_tid ↦ (wid, l_tid)`
(`num_warps` is `Backend::get_num_warps() = num_total_warps`). -/
def thread_map (num_warps num_threads : Nat) : List (Nat × Nat × Nat) :=
  (List.range num_warps).flatMap (fun wid =>
    (List.range num_threads).map (fun l_tid =>
      (1 + wid * num_threads + l_tid, wid, l_tid)))

/-- `std::map::find` on the thread map (keys are distinct, so the first
match is the entry). -/
def map_lookup : List (Nat × Nat × Nat) → Nat → Option (Nat × Nat)
  | [], _ => none
  | (k, v) :: rest, g => if k = g then some v else map_lookup rest g

/-- `thread_map_.find(tid)` of the stub built for `W` warps of `T`
threads. -/
def lookup_gtid (W T g : Nat) : Option (Nat × Nat) :=
  map_lookup (thread_map W T) g

/-- `GDBStub::cmd_thread_select` (gdbstub.cpp 703-716) after argument
parsing: look the thread id up; a miss replies "E01" and leaves the
backend selection untouched; a hit selects the warp/thread (the success
path of `Backend::select_warp_thread`, which replies "OK"). -/
def cmd_thread_select (W T : Nat) (sel : Int × Int) (tid : Nat) : String × (Int × Int) :=
  match lookup_gtid W T tid with
  | none => ("E01", sel)
  | some p => ("OK", (Int.ofNat p.1, Int.ofNat p.2))

/-! ## Thread-map lemmas and claims C7, C10 -/

/-- Membership in the thread map is exactly the constructor's assignment. -/
theorem thread_map_mem (W T g w l : Nat) :
    (g, w, l) ∈ thread_map W T ↔ (w < W ∧ l < T ∧ g = 1 + w * T + l) := by
  simp only [thread_map, List.mem_flatMap, List.mem_map, List.mem_range, Prod.mk.injEq]
  constructor
  · rintro ⟨w', hw', l', hl', h1, h2, h3⟩
    subst h2; subst h3
    exact ⟨hw', hl', h1.symm⟩
  · rintro ⟨hw, hl, hg⟩
    exact ⟨w, hw, l, hl, hg.symm, rfl, rfl⟩

/-- Every assigned gtid lies in `[1, W * T]`. -/
theorem gtid_le (W T w l : Nat) (hw : w < W) (hl : l < T) : 1 + w * T + l ≤ W * T := by
  have h1 : w * T + l < w * T + T := Nat.add_lt_add_left hl _
  have h2 : w * T + T = (w + 1) * T := (Nat.succ_mul w T).symm
  have h3 : (w + 1) * T ≤ W * T := Nat.mul_le_mul_right T (by omega)
  linarith

/-- The gtid assignment is injective in `(warp, thread)`. -/
theorem gtid_inj (T w l w' l' : Nat) (hl : l < T) (hl' : l' < T)
    (h : 1 + w * T + l = 1 + w' * T + l') : w = w' ∧ l = l' := by
  have hT : 0 < T := by omega
  have e1 : (w * T + l) / T = w := by
    rw [mul_comm w T, Nat.mul_add_div hT, Nat.div_eq_of_lt hl, Nat.add_zero]
  have e2 : (w' * T + l') / T = w' := by
    rw [mul_comm w' T, Nat.mul_add_div hT, Nat.div_eq_of_lt hl', Nat.add_zero]
  have e3 : w * T + l = w' * T + l' := by linarith
  have e4 : w = w' := by rw [← e1, ← e2, e3]
  refine ⟨e4, ?_⟩
  rw [e4] at e3
  exact Nat.add_left_cancel e3

/-- Every gtid in `[1, W * T]` is assigned (to `((g-1)/T, (g-1)%T)`). -/
theorem gtid_surj (W T g : Nat) (h1 : 1 ≤ g) (h2 : g ≤ W * T) :
    (g, (g - 1) / T, (g - 1) % T) ∈ thread_map W T := by
  rcases Nat.eq_zero_or_pos T with hT | hT
  · subst hT
    rw [Nat.mul_zero] at h2
    omega
  rw [thread_map_mem]
  have hmod : (g - 1) % T < T := Nat.mod_lt _ hT
  have hdm : (g - 1) / T * T + (g - 1) % T = g - 1 := by
    rw [mul_comm]
    exact Nat.div_add_mod _ _
  refine ⟨?_, hmod, ?_⟩
  · rw [Nat.div_lt_iff_lt_mul hT]
    calc g - 1 < g := Nat.sub_lt (by omega) (by norm_num)
      _ ≤ W * T := h2
  · rw [Nat.add_assoc, hdm]
    omega

/-- A key held by no entry of an association list is not found. -/
theorem map_lookup_eq_none (l : List (Nat × Nat × Nat)) (g : Nat)
    (h : ∀ w lt, (g, w, lt) ∉ l) : map_lookup l g = none := by
  induction l with
  | nil => rfl
  | cons p rest ih =>
    obtain ⟨k, v⟩ := p
    simp only [map_lookup]
    by_cases hk : k = g
    · subst hk
      have hmem : (k, v.1, v.2) ∈ (k, v) :: rest := by simp
      exact absurd hmem (h v.1 v.2)
    · rw [if_neg hk]
      exact ih (fun w lt hm => h w lt (List.mem_cons_of_mem _ hm))

/-- Claim C7: the map built at stub construction assigns
`gtid = 1 + w * num_threads + l` to every valid pair, and is a bijection
between `[1, num_total_warps * num_threads]` and the valid (warp, thread)
pairs; gtid 0 is never assigned. -/
theorem C7_thread_map_bijection (W T : Nat) :
    (∀ w l, w < W → l < T → (1 + w * T + l, w, l) ∈ thread_map W T) ∧
    (∀ g w l, (g, w, l) ∈ thread_map W T →
      w < W ∧ l < T ∧ g = 1 + w * T + l ∧ 1 ≤ g ∧ g ≤ W * T) ∧
    (∀ g w l w' l', (g, w, l) ∈ thread_map W T → (g, w', l') ∈ thread_map W T →
      w = w' ∧ l = l') ∧
    (∀ g, 1 ≤ g → g ≤ W * T → ∃ w l, (g, w, l) ∈ thread_map W T) ∧
    (∀ w l, (0, w, l) ∉ thread_map W T) := by
  refine ⟨?_, ?_, ?_, ?_, ?_⟩
  · intro w l hw hl
    exact (thread_map_mem W T _ w l).mpr ⟨hw, hl, rfl⟩
  · intro g w l hm
    obtain ⟨hw, hl, hg⟩ := (thread_map_mem W T g w l).mp hm
    have hle := gtid_le W T w l hw hl
    refine ⟨hw, hl, hg, by linarith [Nat.zero_le (w * T), Nat.zero_le l], by linarith⟩
  · intro g w l w' l' h1 h2
    obtain ⟨_, hl, hg⟩ := (thread_map_mem W T g w l).mp h1
    obtain ⟨_, hl', hg'⟩ := (thread_map_mem W T g w' l').mp h2
    exact gtid_inj T w l w' l' hl hl' (hg.symm.trans hg')
  · intro g h1 h2
    exact ⟨(g - 1) / T, (g - 1) % T, gtid_surj W T g h1 h2⟩
  · intro w l hm
    obtain ⟨_, _, hg⟩ := (thread_map_mem W T 0 w l).mp hm
    have hpos : 0 < 1 + w * T + l := by positivity
    linarith

/-- Claim C10: an RSP `Hc`/`Hg` thread-select whose parsed thread id is
not a key of the thread map replies "E01" and leaves the backend's
selection unchanged; in particular gtid 0 is never a key, and the id
0xFFFFFFFF (what `strtoul("-1", 16)` truncates to) is not a key whenever
the map's `W * T` gtids stay below it. -/
theorem C10_thread_select_invalid (W T : Nat) (sel : Int × Int) (tid : Nat)
    (h : lookup_gtid W T tid = none) :
    cmd_thread_select W T sel tid = ("E01", sel) ∧
    lookup_gtid W T 0 = none ∧
    (W * T < 4294967295 → lookup_gtid W T 4294967295 = none) := by
  refine ⟨?_, ?_, ?_⟩
  · unfold cmd_thread_select
    rw [h]
  · apply map_lookup_eq_none
    intro w lt hm
    obtain ⟨_, _, hg⟩ := (thread_map_mem W T 0 w lt).mp hm
    have hpos : 0 < 1 + w * T + lt := by positivity
    linarith
  · intro hWT
    apply map_lookup_eq_none
    intro w lt hm
    obtain ⟨hw, hl, hg⟩ := (thread_map_mem W T 4294967295 w lt).mp hm
    have hle := gtid_le W T w lt hw hl
    linarith

/-- Claim C10, instantiated: a 2-warp, 4-thread stub, `Hg0`. -/
theorem C10_thread_select_invalid_witness :
    cmd_thread_select 2 4 (-1, -1) 0 = ("E01", (-1, -1)) ∧
    lookup_gtid 2 4 0 = none ∧
    (2 * 4 < 4294967295 → lookup_gtid 2 4 4294967295 = none) :=
  C10_thread_select_invalid 2 4 (-1, -1) 0 (by decide)

/-! ## Packet framing lemmas and claim C8 -/

theorem foldl_add_shift (l : List Nat) :
    ∀ a : Nat, l.foldl (fun x y => x + y) a = a + l.foldl (fun x y => x + y) 0 := by
  induction l with
  | nil => intro a; simp
  | cons c rest ih =>
    intro a
    simp only [List.foldl_cons]
    rw [ih (a + c), ih (0 + c)]
    omega

/-- The low byte of the `uint32_t` checksum accumulation is the low byte
of the plain byte sum. -/
theorem foldl_mod32_mod256 (l : List Nat) :
    ∀ a : Nat, (l.foldl (fun x y => (x + y) % 2 ^ 32) a) % 256 =
      (l.foldl (fun x y => x + y) a) % 256 := by
  induction l with
  | nil => intro a; rfl
  | cons c rest ih =>
    intro a
    simp only [List.foldl_cons]
    rw [ih ((a + c) % 2 ^ 32), foldl_add_shift rest ((a + c) % 2 ^ 32),
      foldl_add_shift rest (a + c)]
    omega

theorem checksum_str_eq (msg : List Nat) :
    checksum_str msg =
      [hex_digit ((msg.foldl (fun x y => x + y) 0) % 256 / 16),
       hex_digit ((msg.foldl (fun x y => x + y) 0) % 256 % 16)] := by
  unfold checksum_str
  rw [land_255_eq_mod, foldl_mod32_mod256]

theorem hex_val_hex_digit (x : Nat) (h : x < 16) : hex_val (hex_digit x) = some x := by
  unfold hex_digit hex_val
  by_cases h10 : x < 10
  · rw [if_pos h10, if_pos (by omega)]
    congr 1
    omega
  · rw [if_neg h10, if_neg (by omega), if_pos (by omega)]
    congr 1
    omega

/-- The receive loop on a '#'-free prefix followed by '#': accumulates
exactly the prefix plus '#' into the buffer and the checksum. -/
theorem recv_loop_spec (p : List Nat) :
    ∀ (tail : List Nat) (ck : Nat) (buf : List Nat),
      (∀ b ∈ p, b ≠ 35) → buf.length + p.length ≤ 4094 →
      recv_loop (p ++ 35 :: tail) ck buf =
        some ((ck + p.foldl (fun x y => x + y) 0 + 35) % 256, buf ++ p ++ [35], tail) := by
  induction p with
  | nil =>
    intro tail ck buf _ hlen
    simp only [List.nil_append, recv_loop]
    rw [if_neg (by simp only [List.length_nil, Nat.add_zero] at hlen; omega)]
    simp
  | cons c rest ih =>
    intro tail ck buf hno hlen
    have hc : c ≠ 35 := hno c (by simp)
    simp only [List.cons_append, recv_loop, List.append_eq]
    rw [if_neg (by simp only [List.length_cons] at hlen; omega), if_neg hc]
    rw [ih tail ((ck + c) % 256) (buf ++ [c])
      (fun b hb => hno b (by simp [hb]))
      (by simp only [List.length_append, List.length_cons, List.length_nil] at hlen ⊢; omega)]
    refine congrArg some ?_
    refine Prod.ext ?_ (Prod.ext ?_ rfl)
    · show ((ck + c) % 256 + rest.foldl (fun x y => x + y) 0 + 35) % 256 =
        (ck + (c :: rest).foldl (fun x y => x + y) 0 + 35) % 256
      rw [List.foldl_cons, foldl_add_shift rest (0 + c)]
      omega
    · show buf ++ [c] ++ rest ++ [35] = buf ++ c :: rest ++ [35]
      simp

theorem strip_packet_eq (payload : List Nat) (d1 d2 : Nat) :
    strip_packet (36 :: (payload ++ [35] ++ [d1, d2])) = payload := by
  unfold strip_packet
  simp only [List.drop_succ_cons, List.drop_zero, List.length_cons]
  rw [show payload ++ [35] ++ [d1, d2] = payload ++ [35, d1, d2] by simp]
  rw [show (payload ++ [35, d1, d2]).length + 1 - 4 = payload.length by simp]
  exact List.take_left payload _

/-- Claim C8 (amended): for every payload of byte values that contains no
'#' (0x23) and fits the receive buffer (at most 4094 bytes), the
transmitted packet is exactly `'$' + payload + '#' + cc` with `cc` the
low 8 bits of the payload's byte-wise sum as two lowercase hex digits,
and feeding that packet to the receiver accepts the checksum and
recovers the payload. -/
theorem C8_packet_roundtrip (payload : List Nat)
    (hbytes : ∀ b ∈ payload, b < 256) (hnohash : ∀ b ∈ payload, b ≠ 35)
    (hlen : payload.length ≤ 4094) :
    packetify payload =
      [36] ++ payload ++ [35] ++
        [hex_digit ((payload.foldl (fun x y => x + y) 0) % 256 / 16),
         hex_digit ((payload.foldl (fun x y => x + y) 0) % 256 % 16)] ∧
    depacketify (packetify payload) = some payload := by
  constructor
  · unfold packetify
    rw [checksum_str_eq]
  · have hsum := checksum_str_eq payload
    set S := (payload.foldl (fun x y => x + y) 0) % 256 with hS
    have hS16 : S / 16 < 16 := by omega
    have hS16b : S % 16 < 16 := by omega
    have hstream : packetify payload =
        36 :: (payload ++ 35 :: [hex_digit (S / 16), hex_digit (S % 16)]) := by
      unfold packetify
      rw [hsum]
      simp
    unfold depacketify
    rw [hstream]
    simp only [recv_packet]
    norm_num
    rw [recv_loop_spec payload _ 0 [] hnohash (by simpa using hlen)]
    have hck : ((0 + payload.foldl (fun x y => x + y) 0 + 35) % 256 + 256 - 35) % 256 =
        strtol2 (hex_digit (S / 16)) (hex_digit (S % 16)) := by
      simp only [strtol2, hex_val_hex_digit _ hS16, hex_val_hex_digit _ hS16b]
      omega
    refine ⟨36 :: (([] ++ payload ++ [35]) ++ [hex_digit (S / 16), hex_digit (S % 16)]),
      ?_, ?_⟩
    · simp only [hck, ite_true]
    · simp only [List.nil_append]
      exact strip_packet_eq payload _ _

/-- Claim C8, instantiated at the payload "q". -/
theorem C8_packet_roundtrip_witness :
    packetify [113] =
      [36] ++ [113] ++ [35] ++
        [hex_digit ((List.foldl (fun x y => x + y) 0 [113]) % 256 / 16),
         hex_digit ((List.foldl (fun x y => x + y) 0 [113]) % 256 % 16)] ∧
    depacketify (packetify [113]) = some [113] :=
  C8_packet_roundtrip [113] (by decide) (by decide) (by decide)

/-- Claim C8 as stated (identity on arbitrary payloads) is false at the
payload "#0": the receiver stops at the embedded '#', the stray
strtol parse accepts the checksum, and the recovered payload is empty. -/
theorem C8_packet_roundtrip_counterexample :
    depacketify (packetify [35, 48]) = some [] ∧ ([] : List Nat) ≠ [35, 48] := by
  exact ⟨by decide, by decide⟩

end VxDebug
